import Mathlib

/-!
Shallow embedding of `src/main.py` (`EducationalProgramBot`): the data
loader `load_data` and the query engine `search_programs`.

Modelling conventions:
* A pandas cell is `Option String`: `none` is NaN/absent (`pd.notna x = x.isSome`),
  `some s` is the cell's value after Python's `str(...)` conversion.
* Python `str.strip()` is `pyStrip` (remove leading/trailing whitespace).
* Python truthiness of a `None`-or-string variable is `pyTruthy`
  (`None` and `""` are falsy).
* Fallible code is `Except String`: a raised-and-uncaught Python exception
  is `.error msg`; the message text is a model artifact.
* `pandas.Series.str.contains(pat, case=False, na=False)` uses `regex=True`
  by default, i.e. `re.search(pat, cell, re.IGNORECASE)`.  The `Regex`
  type and Brzozowski-derivative matcher below model the fragment of
  Python regular expressions built from literal characters, `.` (any
  character except newline), alternation `|`, grouping-free repetition
  `*` `+` `?`; case folding is per-character `Char.toLower`.  The parser
  rejects `( ) [` (for a lone such character Python also raises
  `re.error`) and conservatively rejects the unmodelled constructs
  `^ $ \x5c \x7b` (which Python would accept); no theorem below depends
  on an input using an unmodelled construct.
-/

/-- Python `str.isspace` characters relevant to `strip()`. -/
def isSpaceChar (c : Char) : Bool :=
  c == ' ' || c == '\t' || c == '\n' || c == '\r' || c == '\x0b' || c == '\x0c'

/-- Drop leading whitespace characters from a character list. -/
def dropLeadingSpaces : List Char → List Char
  | [] => []
  | c :: cs => if isSpaceChar c then dropLeadingSpaces cs else c :: cs

/-- Python `str.strip()`: remove leading and trailing whitespace. -/
def pyStrip (s : String) : String :=
  ⟨(dropLeadingSpaces (dropLeadingSpaces s.toList).reverse).reverse⟩

/-- Python truthiness of a variable holding `None` or a string:
`None` and the empty string are falsy. -/
def pyTruthy : Option String → Bool
  | none => false
  | some s => !(s == "")

/-- Value of a `None`-or-string variable known to be truthy. -/
def optStr : Option String → String
  | none => ""
  | some s => s

/-- A raw spreadsheet row as iterated by `load_data` (columns
`ep_code`, `ep_name`, `cipher_code`; the optional 4th column
`cipher_name` is never read). -/
structure Row where
  ep_code : Option String
  ep_name : Option String
  cipher_code : Option String
deriving DecidableEq, Repr

/-- A processed record appended to `processed_data` by `load_data`. -/
structure Record where
  ep_code : String
  ep_name : String
  cipher_code : String
deriving DecidableEq, Repr

/-- The raw table returned by `pd.read_excel`: a column count and the rows. -/
structure RawTable where
  numCols : Nat
  rows : List Row
deriving DecidableEq, Repr

/-- The cipher sentinel test `cipher_code in [\x27nan\x27, \x27\x27]` of
`load_data` (written here without the list). -/
def isBlankCipher (z : String) : Bool := z == "nan" || z == ""

/-- The row-processing loop of `load_data` (src/main.py lines 54-82):
iterate rows carrying `current_ep_code`, `current_ep_name`.  A row with
both `ep_code` and `ep_name` non-null resets the carried values to the
stripped cell contents and, if its cipher cell is non-null and its
stripped value is neither empty nor the literal "nan", emits a record;
any other row emits under the carried values when its cipher cell is
non-null and both carried values are truthy. -/
def processRows : List Row → Option String → Option String → List Record
  | [], _, _ => []
  | r :: rs, cc, cn =>
    match r.ep_code, r.ep_name with
    | some c0, some n0 =>
      (match r.cipher_code with
       | some z0 =>
         if isBlankCipher (pyStrip z0) then []
         else [⟨pyStrip c0, pyStrip n0, pyStrip z0⟩]
       | none => []) ++ processRows rs (some (pyStrip c0)) (some (pyStrip n0))
    | _, _ =>
      (match r.cipher_code, pyTruthy cc && pyTruthy cn with
       | some z0, true =>
         if isBlankCipher (pyStrip z0) then []
         else [⟨optStr cc, optStr cn, pyStrip z0⟩]
       | _, _ => []) ++ processRows rs cc cn

/-- `load_data` (src/main.py lines 33-96).  The argument is the outcome of
`pd.read_excel`: `.error` when reading raises (the `except` clause sets
`self.data` to an empty frame).  A table with fewer than 3 columns is
rejected with an empty result.  A table with 5 or more columns makes the
4-name column assignment `self.data.columns = column_names[:...]` raise a
length-mismatch error, also caught as an empty result. -/
def load_data (src : Except String RawTable) : List Record :=
  match src with
  | .error _ => []
  | .ok t =>
    if t.numCols < 3 then []
    else if 5 ≤ t.numCols then []
    else processRows t.rows none none

/-- A row of `self.data` as read by `search_programs`: `ep_code` and
`ep_name` as strings, `cipher_code` possibly null (`na=False` in the
substring phase guards exactly this). -/
structure DRecord where
  ep_code : String
  ep_name : String
  cipher_code : Option String
deriving DecidableEq, Repr

/-- View a loaded record as a search-time data row (all cells present). -/
def Record.toD (r : Record) : DRecord := ⟨r.ep_code, r.ep_name, some r.cipher_code⟩

/-- The format string `f"\x7brow[ep_code]\x7d - \x7brow[ep_name]\x7d"`. -/
def formatRecord (r : DRecord) : String := r.ep_code ++ " - " ++ r.ep_name

/-- The formatting-and-dedup loop shared by both search phases
(src/main.py lines 118-127 and 133-142): append `formatRecord r` only
when it is not in `seen`. -/
def dedupLoop : List DRecord → List String → List String
  | [], _ => []
  | r :: rs, seen =>
    if seen.contains (formatRecord r) then dedupLoop rs seen
    else formatRecord r :: dedupLoop rs (formatRecord r :: seen)

/-- Abstract syntax of the modelled fragment of Python regular
expressions. -/
inductive Regex where
  | eps : Regex
  | fail : Regex
  | lit : Char → Regex
  | anyc : Regex
  | seq : Regex → Regex → Regex
  | alt : Regex → Regex → Regex
  | star : Regex → Regex
deriving DecidableEq, Repr

/-- Whether a regular expression accepts the empty string. -/
def nullable : Regex → Bool
  | .eps => true
  | .fail => false
  | .lit _ => false
  | .anyc => false
  | .seq r1 r2 => nullable r1 && nullable r2
  | .alt r1 r2 => nullable r1 || nullable r2
  | .star _ => true

/-- Brzozowski derivative with the `re.IGNORECASE` character comparison
(per-character lower-casing); `.` matches any character except newline. -/
def derivC : Regex → Char → Regex
  | .eps, _ => .fail
  | .fail, _ => .fail
  | .lit a, c => if a.toLower == c.toLower then .eps else .fail
  | .anyc, c => if c == '\n' then .fail else .eps
  | .seq r1 r2, c =>
    if nullable r1 then .alt (.seq (derivC r1 c) r2) (derivC r2 c)
    else .seq (derivC r1 c) r2
  | .alt r1 r2, c => .alt (derivC r1 c) (derivC r2 c)
  | .star r, c => .seq (derivC r c) (.star r)

/-- Whether some (possibly empty) leading segment of the characters
matches the regular expression. -/
def matchesFromStart (r : Regex) : List Char → Bool
  | [] => nullable r
  | c :: cs => nullable r || matchesFromStart (derivC r c) cs

/-- `re.search` over a character list: some leading segment of some
suffix matches. -/
def searchChars (r : Regex) : List Char → Bool
  | [] => nullable r
  | c :: cs => matchesFromStart r (c :: cs) || searchChars r cs

/-- `re.search(pat, s, re.IGNORECASE) is not None` for a compiled
pattern. -/
def regexSearch (r : Regex) (s : String) : Bool := searchChars r s.toList

/-- Join the alternation accumulated so far with the current
alternative. -/
def altJoin : Option Regex → Regex → Regex
  | none, r => r
  | some d, r => Regex.alt d r

/-- Sequence the atoms of the current alternative, held in reverse
order. -/
def seqOf (ratoms : List Regex) : Regex :=
  ratoms.foldl (fun acc a => Regex.seq a acc) Regex.eps

/-- One-pass parser for the modelled regex fragment.  `alts` is the
alternation built so far, `ratoms` the atoms of the current alternative
in reverse (so the postfix operators `*` `+` `?` rewrite its head).
`( ) [` are rejected as Python does for a lone such character;
`^ $ \x5c \x7b` are rejected as outside the modelled fragment. -/
def parseLoop : List Char → Option Regex → List Regex → Except String Regex
  | [], alts, ratoms => .ok (altJoin alts (seqOf ratoms))
  | c :: cs, alts, ratoms =>
    if c == '.' then parseLoop cs alts (Regex.anyc :: ratoms)
    else if c == '*' then
      match ratoms with
      | a :: rest => parseLoop cs alts (Regex.star a :: rest)
      | [] => .error "re.error: nothing to repeat"
    else if c == '+' then
      match ratoms with
      | a :: rest => parseLoop cs alts (Regex.seq a (Regex.star a) :: rest)
      | [] => .error "re.error: nothing to repeat"
    else if c == '?' then
      match ratoms with
      | a :: rest => parseLoop cs alts (Regex.alt a Regex.eps :: rest)
      | [] => .error "re.error: nothing to repeat"
    else if c == '|' then parseLoop cs (some (altJoin alts (seqOf ratoms))) []
    else if c == '(' || c == ')' || c == '[' then
      .error "re.error: unbalanced or unterminated construct"
    else if c == '^' || c == '$' || c == '\x5c' || c == '\x7b' then
      .error "construct outside the modelled regex fragment"
    else parseLoop cs alts (Regex.lit c :: ratoms)

/-- Compile a query string as `re.compile` would inside
`Series.str.contains`. -/
def compilePattern (p : String) : Except String Regex :=
  parseLoop p.toList none []

/-- A value passed to `search_programs` as `cipher_query`: a string, the
Python `None`, or a representative non-string value. -/
inductive Query where
  | str : String → Query
  | intval : Int → Query
  | noneq : Query
deriving DecidableEq, Repr

/-- The call `cipher_query.strip()` (src/main.py line 112): only strings
have `.strip`; `None` and non-strings raise `AttributeError`. -/
def stripQuery : Query → Except String String
  | .str s => .ok (pyStrip s)
  | .noneq => .error "AttributeError: NoneType object has no attribute strip"
  | .intval _ => .error "AttributeError: int object has no attribute strip"

/-- The substring-phase row predicate
`self.data[cipher_code].str.contains(cipher_query, case=False, na=False)`:
null cipher cells never match (`na=False`). -/
def cipherMatchesPattern (pat : Regex) (r : DRecord) : Bool :=
  match r.cipher_code with
  | some c => regexSearch pat c
  | none => false

/-- `search_programs` (src/main.py lines 98-144).  Empty data short-cuts
to `[]` before the query is touched; then the query is stripped, exact
string-equality matches are formatted-and-deduped if any exist, and
otherwise the query is compiled as a regular expression and searched
case-insensitively in each non-null cipher cell.  (When the substring
phase selects nothing, the loop output and the final `return []` agree
on `[]`.) -/
def search_programs (data : List DRecord) (q : Query) : Except String (List String) :=
  if data.isEmpty then .ok []
  else
    match stripQuery q with
    | .error e => .error e
    | .ok cq =>
      let exact := data.filter (fun r => r.cipher_code == some cq)
      if !exact.isEmpty then .ok (dedupLoop exact [])
      else
        match compilePattern cq with
        | .error e => .error e
        | .ok pat => .ok (dedupLoop (data.filter (cipherMatchesPattern pat)) [])

/-- Case-insensitive prefix comparison of character lists, with the
per-character case folding used by the matcher. -/
def frontMatchesCI : List Char → List Char → Bool
  | [], _ => true
  | _ :: _, [] => false
  | a :: as, c :: cs => (a.toLower == c.toLower) && frontMatchesCI as cs

/-- Case-insensitive substring occurrence: some leading segment of some
suffix equals the needle, up to case. -/
def occursWithinCI (w : List Char) : List Char → Bool
  | [] => frontMatchesCI w []
  | c :: cs => frontMatchesCI w (c :: cs) || occursWithinCI w cs

/-- Modelled from the spec: the substring phase as the spec words it,
plain case-insensitive substring containment of the query in the cipher
(`hay` contains `needle`). -/
def containsSubstrCI (hay needle : String) : Bool :=
  occursWithinCI needle.toList hay.toList

/-- Modelled from the spec: the substring-phase row predicate as the
spec words it — the cipher cell contains the query as a substring,
case-insensitively, and a null cipher cell never matches. -/
def cipherContainsCI (q : String) (r : DRecord) : Bool :=
  match r.cipher_code with
  | some c => containsSubstrCI c q
  | none => false

/-- A regular expression that is a plain sequence of literal
characters. -/
def litSeq : List Char → Regex
  | [] => .eps
  | c :: cs => .seq (.lit c) (litSeq cs)

/-- The characters Python regular expressions treat specially. -/
def isMeta (c : Char) : Bool :=
  c == '.' || c == '^' || c == '$' || c == '*' || c == '+' || c == '?' ||
  c == '\x7b' || c == '\x7d' || c == '[' || c == ']' || c == '\x5c' ||
  c == '|' || c == '(' || c == ')'

/-- A string free of regex metacharacters: such a query is matched
purely literally by `re.search`. -/
def litOnly (s : String) : Bool := s.toList.all (fun c => !(isMeta c))

instance instDecEqExcept {ε α : Type} [DecidableEq ε] [DecidableEq α] :
    DecidableEq (Except ε α) := fun a b =>
  match a, b with
  | .error e, .error f =>
    if h : e = f then .isTrue (by rw [h]) else .isFalse (by simp [h])
  | .ok x, .ok y =>
    if h : x = y then .isTrue (by rw [h]) else .isFalse (by simp [h])
  | .error _, .ok _ => .isFalse (by simp)
  | .ok _, .error _ => .isFalse (by simp)

/-- Every string produced by the dedup loop is the formatting of some
record of the selected subset. -/
theorem mem_dedupLoop {x : String} :
    ∀ (rs : List DRecord) (seen : List String),
      x ∈ dedupLoop rs seen → ∃ r ∈ rs, formatRecord r = x := by
  intro rs
  induction rs with
  | nil => intro seen h; simp [dedupLoop] at h
  | cons r rs ih =>
    intro seen h
    rw [dedupLoop] at h
    split at h
    · obtain ⟨r', hr', he⟩ := ih _ h
      exact ⟨r', List.mem_cons_of_mem _ hr', he⟩
    · rcases List.mem_cons.mp h with h | h
      · exact ⟨r, List.mem_cons_self _ _, h.symm⟩
      · obtain ⟨r', hr', he⟩ := ih _ h
        exact ⟨r', List.mem_cons_of_mem _ hr', he⟩

/-- Strings produced by the dedup loop were not in the `seen`
accumulator. -/
theorem dedupLoop_not_seen {x : String} :
    ∀ (rs : List DRecord) (seen : List String),
      x ∈ dedupLoop rs seen → x ∉ seen := by
  intro rs
  induction rs with
  | nil => intro seen h; simp [dedupLoop] at h
  | cons r rs ih =>
    intro seen h
    rw [dedupLoop] at h
    split at h
    · exact ih _ h
    · rcases List.mem_cons.mp h with h | h
      · subst h
        intro hmem
        rename_i hc
        exact hc (List.elem_iff.mpr hmem)
      · intro hmem
        exact ih _ h (List.mem_cons_of_mem _ hmem)

/-- The dedup loop never emits the same formatted string twice. -/
theorem dedupLoop_nodup :
    ∀ (rs : List DRecord) (seen : List String), (dedupLoop rs seen).Nodup := by
  intro rs
  induction rs with
  | nil => intro seen; simp [dedupLoop]
  | cons r rs ih =>
    intro seen
    rw [dedupLoop]
    split
    · exact ih _
    · refine List.nodup_cons.mpr ⟨fun hmem => ?_, ih _⟩
      exact dedupLoop_not_seen _ _ hmem (List.mem_cons_self _ _)

/-- The dedup loop output is a sublist of the formatted selected subset:
first-seen source order is preserved. -/
theorem dedupLoop_sublist :
    ∀ (rs : List DRecord) (seen : List String),
      (dedupLoop rs seen).Sublist (rs.map formatRecord) := by
  intro rs
  induction rs with
  | nil => intro seen; simp [dedupLoop]
  | cons r rs ih =>
    intro seen
    rw [dedupLoop]
    split
    · exact (ih _).trans (List.sublist_cons_self _ _)
    · exact List.Sublist.cons₂ _ (ih _)

/-- Every record emitted by the row-processing loop carries a cipher
that is neither empty nor the "nan" sentinel. -/
theorem processRows_cipher_not_blank :
    ∀ (rows : List Row) (cc cn : Option String),
      ∀ r ∈ processRows rows cc cn, isBlankCipher r.cipher_code = false := by
  intro rows
  induction rows with
  | nil => intro cc cn r hr; simp [processRows] at hr
  | cons row rows ih =>
    intro cc cn r hr
    rw [processRows] at hr
    split at hr
    · rcases List.mem_append.mp hr with h | h
      · split at h
        · split at h
          · simp at h
          · rw [List.mem_singleton] at h
            subst h
            rename_i hcond
            simpa using hcond
        · simp at h
      · exact ih _ _ _ h
    · rcases List.mem_append.mp hr with h | h
      · split at h
        · split at h
          · simp at h
          · rw [List.mem_singleton] at h
            subst h
            rename_i hcond
            simpa using hcond
        · simp at h
      · exact ih _ _ _ h

/-- The empty-string regex accepts a (trivial) leading segment of every
character list. -/
theorem matchesFromStart_eps : ∀ cs : List Char, matchesFromStart .eps cs = true := by
  intro cs
  cases cs <;> simp [matchesFromStart, nullable]

/-- The empty regex matches no leading segment. -/
theorem matchesFromStart_fail : ∀ cs : List Char, matchesFromStart .fail cs = false := by
  intro cs
  induction cs with
  | nil => simp [matchesFromStart, nullable]
  | cons c cs ih => simp [matchesFromStart, nullable, derivC, ih]

/-- Prefix matching distributes over alternation. -/
theorem matchesFromStart_alt :
    ∀ (cs : List Char) (r1 r2 : Regex),
      matchesFromStart (.alt r1 r2) cs =
        (matchesFromStart r1 cs || matchesFromStart r2 cs) := by
  intro cs
  induction cs with
  | nil => intro r1 r2; simp [matchesFromStart, nullable]
  | cons c cs ih =>
    intro r1 r2
    simp only [matchesFromStart, nullable, derivC, ih]
    cases nullable r1 <;> cases nullable r2 <;>
      simp [Bool.or_assoc, Bool.or_comm, Bool.or_left_comm]

/-- A sequence starting with the empty regex matches no leading
segment. -/
theorem matchesFromStart_seq_fail :
    ∀ (cs : List Char) (r : Regex),
      matchesFromStart (.seq .fail r) cs = false := by
  intro cs
  induction cs with
  | nil => intro r; simp [matchesFromStart, nullable]
  | cons c cs ih =>
    intro r
    simp [matchesFromStart, nullable, derivC, ih]

/-- A leading empty-string regex is transparent for prefix matching. -/
theorem matchesFromStart_seq_eps :
    ∀ (cs : List Char) (r : Regex),
      matchesFromStart (.seq .eps r) cs = matchesFromStart r cs := by
  intro cs
  induction cs with
  | nil => intro r; simp [matchesFromStart, nullable]
  | cons c cs ih =>
    intro r
    simp [matchesFromStart, nullable, derivC, matchesFromStart_alt,
      matchesFromStart_seq_fail, ih]

/-- A literal sequence accepts the empty string exactly when it is
empty. -/
theorem nullable_litSeq (w : List Char) :
    nullable (litSeq w) = frontMatchesCI w [] := by
  cases w <;> simp [litSeq, nullable, frontMatchesCI]

/-- Prefix matching of a literal-sequence regex is case-insensitive
prefix comparison. -/
theorem matchesFromStart_litSeq :
    ∀ (w cs : List Char),
      matchesFromStart (litSeq w) cs = frontMatchesCI w cs := by
  intro w
  induction w with
  | nil => intro cs; simp [litSeq, matchesFromStart_eps, frontMatchesCI]
  | cons a as ih =>
    intro cs
    cases cs with
    | nil => simp [litSeq, matchesFromStart, nullable, frontMatchesCI]
    | cons c cs =>
      simp only [litSeq, matchesFromStart, nullable, derivC, Bool.false_and,
        Bool.false_or, frontMatchesCI]
      rcases h : a.toLower == c.toLower with _ | _
      · simp [matchesFromStart_seq_fail]
      · simp [matchesFromStart_seq_eps, ih]

/-- Searching a literal-sequence regex is case-insensitive substring
occurrence. -/
theorem searchChars_litSeq :
    ∀ (w cs : List Char),
      searchChars (litSeq w) cs = occursWithinCI w cs := by
  intro w cs
  induction cs with
  | nil => simp [searchChars, occursWithinCI, nullable_litSeq]
  | cons c cs ih =>
    simp [searchChars, occursWithinCI, matchesFromStart_litSeq, ih]

/-- On a metacharacter-free input the parser accumulates exactly one
literal atom per character. -/
theorem parseLoop_lits :
    ∀ (w : List Char), w.all (fun c => !(isMeta c)) = true →
      ∀ (alts : Option Regex) (ratoms : List Regex),
        parseLoop w alts ratoms =
          .ok (altJoin alts (seqOf ((w.map Regex.lit).reverse ++ ratoms))) := by
  intro w
  induction w with
  | nil => intro _ alts ratoms; simp [parseLoop]
  | cons c cs ih =>
    intro hall alts ratoms
    rw [List.all_cons, Bool.and_eq_true] at hall
    obtain ⟨hc, hcs⟩ := hall
    have hc' : isMeta c = false := by simpa using hc
    have hfalse : ∀ d : Char, isMeta d = true → (c == d) = false := by
      intro d hd
      rcases hcd : c == d with _ | _
      · rfl
      · rw [beq_iff_eq] at hcd
        rw [hcd] at hc'
        rw [hc'] at hd
        cases hd
    rw [parseLoop.eq_def]
    simp only [hfalse '.' (by decide), hfalse '*' (by decide), hfalse '+' (by decide),
      hfalse '?' (by decide), hfalse '|' (by decide), hfalse '(' (by decide),
      hfalse ')' (by decide), hfalse '[' (by decide), hfalse '^' (by decide),
      hfalse '$' (by decide), hfalse '\x5c' (by decide), hfalse '\x7b' (by decide),
      Bool.or_false, Bool.false_or, Bool.false_eq_true, if_false]
    rw [ih hcs alts (Regex.lit c :: ratoms)]
    simp [List.reverse_cons, List.append_assoc]

/-- Folding the reversed literal atoms back into a sequence yields the
plain literal-sequence regex. -/
theorem seqOf_reverse_lits :
    ∀ w : List Char, seqOf ((w.map Regex.lit).reverse) = litSeq w := by
  intro w
  induction w with
  | nil => simp [seqOf, litSeq]
  | cons c cs ih =>
    simp only [List.map_cons, List.reverse_cons, litSeq, ← ih, seqOf,
      List.foldl_append, List.foldl_cons, List.foldl_nil]

/-- A metacharacter-free query compiles to the literal-sequence regex of
its characters. -/
theorem compilePattern_litOnly {s : String} (h : litOnly s = true) :
    compilePattern s = .ok (litSeq s.toList) := by
  rw [compilePattern, parseLoop_lits s.toList h none []]
  simp [altJoin, seqOf_reverse_lits]

/-- Regex search with a literal-sequence pattern is exactly
case-insensitive substring containment. -/
theorem regexSearch_litSeq (c q : String) :
    regexSearch (litSeq q.toList) c = containsSubstrCI c q := by
  rw [regexSearch, containsSubstrCI, searchChars_litSeq]

/-- The substring-phase row predicate, for a metacharacter-free query,
is the spec-worded case-insensitive containment predicate. -/
theorem cipherMatchesPattern_litSeq (q : String) (r : DRecord) :
    cipherMatchesPattern (litSeq q.toList) r = cipherContainsCI q r := by
  rw [cipherMatchesPattern, cipherContainsCI]
  rcases r.cipher_code with _ | c
  · rfl
  · exact regexSearch_litSeq c q

/-- Every record emitted by `load_data` carries a non-blank,
non-sentinel cipher. -/
theorem load_data_cipher_not_blank (src : Except String RawTable) :
    ∀ r ∈ load_data src, isBlankCipher r.cipher_code = false := by
  intro r hr
  rcases src with e | t
  · simp [load_data] at hr
  · rw [load_data] at hr
    split at hr
    · simp at hr
    · split at hr
      · simp at hr
      · exact processRows_cipher_not_blank _ _ _ _ hr

/-- Whether a query value is an actual Python string. -/
def Query.isStr : Query → Bool
  | .str _ => true
  | _ => false

/-- On an empty record set, `search_programs` answers `[]` for every
query, string or not, before ever touching the query. -/
theorem search_programs_empty_data (q : Query) : search_programs [] q = .ok [] := rfl

/-- When some record matches the stripped query exactly, the search
result is the formatted-and-deduped exact subset. -/
theorem search_programs_exact_phase (data : List DRecord) (q : String)
    (hne : data ≠ [])
    (hex : data.filter (fun r => r.cipher_code == some (pyStrip q)) ≠ []) :
    search_programs data (.str q) =
      .ok (dedupLoop (data.filter (fun r => r.cipher_code == some (pyStrip q))) []) := by
  rw [search_programs]
  rw [if_neg (by simpa using hne)]
  simp only [stripQuery]
  rw [if_pos (by simpa using hex)]

/-- When no record matches the stripped query exactly and the query
compiles as a pattern, the search result is the formatted-and-deduped
pattern-match subset. -/
theorem search_programs_partial_phase (data : List DRecord) (q : String) (pat : Regex)
    (hne : data ≠ [])
    (hex : data.filter (fun r => r.cipher_code == some (pyStrip q)) = [])
    (hcp : compilePattern (pyStrip q) = .ok pat) :
    search_programs data (.str q) =
      .ok (dedupLoop (data.filter (cipherMatchesPattern pat)) []) := by
  rw [search_programs]
  rw [if_neg (by simpa using hne)]
  simp only [stripQuery]
  rw [if_neg (by simp [hex]), hcp]

/-- C1: for every record set and query string, if at least one record's
cipher equals the stripped query by exact case-sensitive string
equality, then `search_programs` returns exactly the
formatted-and-deduped exact subset, and every returned string comes
from an exactly matching record — substring-only matches never
appear. -/
theorem c1_exact_precedence (data : List DRecord) (q : String)
    (h : ∃ r ∈ data, r.cipher_code = some (pyStrip q)) :
    search_programs data (.str q) =
      .ok (dedupLoop (data.filter (fun r => r.cipher_code == some (pyStrip q))) []) ∧
    ∀ s ∈ dedupLoop (data.filter (fun r => r.cipher_code == some (pyStrip q))) [],
      ∃ r ∈ data, r.cipher_code = some (pyStrip q) ∧ formatRecord r = s := by
  obtain ⟨r0, hr0, hcr0⟩ := h
  have hne : data ≠ [] := by
    intro hd
    rw [hd] at hr0
    simp at hr0
  have hmemf : r0 ∈ data.filter (fun r => r.cipher_code == some (pyStrip q)) :=
    List.mem_filter.mpr ⟨hr0, by simp [hcr0]⟩
  have hex : data.filter (fun r => r.cipher_code == some (pyStrip q)) ≠ [] := by
    intro hd
    rw [hd] at hmemf
    simp at hmemf
  refine ⟨search_programs_exact_phase data q hne hex, ?_⟩
  intro s hs
  obtain ⟨r, hrf, hfmt⟩ := mem_dedupLoop _ _ hs
  obtain ⟨hrd, hcond⟩ := List.mem_filter.mp hrf
  exact ⟨r, hrd, by simpa using hcond, hfmt⟩

/-- Witness for C1: with records `101` and `1011` loaded, the query
`"101"` has an exact match, and the result keeps only `A - Alpha`,
dropping the record whose cipher merely contains `101`. -/
theorem c1_exact_precedence_witness :
    search_programs [⟨"A", "Alpha", some "101"⟩, ⟨"B", "Beta", some "1011"⟩]
        (.str "101") = .ok ["A - Alpha"] := by
  have h := (c1_exact_precedence
    [⟨"A", "Alpha", some "101"⟩, ⟨"B", "Beta", some "1011"⟩] "101"
    ⟨⟨"A", "Alpha", some "101"⟩, by decide, by decide⟩).1
  exact h.trans (by decide)

/-- C2: loading the three-row table with a blank middle row yields the
three records in order, the middle cipher inheriting the code and name
of the first row. -/
theorem c2_carry_forward :
    load_data (.ok ⟨3, [⟨some "A", some "Alpha", some "101"⟩,
      ⟨none, none, some "102"⟩, ⟨some "B", some "Beta", some "201"⟩]⟩) =
      [⟨"A", "Alpha", "101"⟩, ⟨"A", "Alpha", "102"⟩, ⟨"B", "Beta", "201"⟩] := by
  decide

/-- Counterexample to C3: a code cell holding only a space is non-null,
so the main-row branch fires and emits a record whose `ep_code` strips
to the empty string — the claimed non-empty `ep_code` invariant fails. -/
theorem c3_counterexample :
    load_data (.ok ⟨3, [⟨some " ", some "Name", some "123"⟩]⟩) =
      [⟨"", "Name", "123"⟩] ∧
    ∃ r ∈ load_data (.ok ⟨3, [⟨some " ", some "Name", some "123"⟩]⟩),
      r.ep_code = "" := by
  refine ⟨by decide, ⟨⟨"", "Name", "123"⟩, by decide, rfl⟩⟩

/-- C3 amended: every record emitted by `load_data` has a `cipher_code`
that is non-empty (and not the literal sentinel "nan"); the `ep_code`
and `ep_name` of records emitted under carried values are non-empty,
but a row whose code or name cell is whitespace-only still counts as
present and may emit a record with an empty `ep_code` or `ep_name`. -/
theorem c3_cipher_invariant (src : Except String RawTable) :
    ∀ r ∈ load_data src, r.cipher_code ≠ "" ∧ r.cipher_code ≠ "nan" := by
  intro r hr
  have h := load_data_cipher_not_blank src r hr
  rw [isBlankCipher, Bool.or_eq_false_iff] at h
  exact ⟨by simpa using h.2, by simpa using h.1⟩

/-- Witness for C3 amended: the loader output on the carry-forward
table consists of records whose ciphers are all non-blank. -/
theorem c3_cipher_invariant_witness :
    (⟨"A", "Alpha", "102"⟩ : Record) ∈ load_data (.ok ⟨3,
      [⟨some "A", some "Alpha", some "101"⟩, ⟨none, none, some "102"⟩]⟩) ∧
    ("102" : String) ≠ "" ∧ ("102" : String) ≠ "nan" := by
  refine ⟨by decide, c3_cipher_invariant (.ok ⟨3,
    [⟨some "A", some "Alpha", some "101"⟩, ⟨none, none, some "102"⟩]⟩)
    ⟨"A", "Alpha", "102"⟩ (by decide)⟩

/-- The empty-string regex is found in every character list. -/
theorem searchChars_eps : ∀ cs : List Char, searchChars .eps cs = true := by
  intro cs
  cases cs with
  | nil => simp [searchChars, nullable]
  | cons c cs => simp [searchChars, matchesFromStart_eps]

/-- Counterexample to C4: in the substring phase the query is compiled
as a regular expression, not matched as a literal substring — the
metacharacter query "." selects the record with cipher "101" even
though "101" does not contain "." as a substring. -/
theorem c4_counterexample :
    search_programs [⟨"A", "Alpha", some "101"⟩] (.str ".") = .ok ["A - Alpha"] ∧
    containsSubstrCI "101" "." = false := by
  exact ⟨by decide, by decide⟩

/-- C4 amended: when the exact phase selects nothing and the stripped
query is free of regex metacharacters, the result is exactly the
formatted-and-deduped set of records whose cipher contains the query as
a case-insensitive substring, records with a null cipher never
matching; for metacharacter queries the regex interpretation can select
records that do not contain the query literally. -/
theorem c4_substring_phase (data : List DRecord) (q : String)
    (hlit : litOnly (pyStrip q) = true)
    (hex : ∀ r ∈ data, r.cipher_code ≠ some (pyStrip q)) :
    search_programs data (.str q) =
      .ok (dedupLoop (data.filter (cipherContainsCI (pyStrip q))) []) := by
  by_cases hd : data = []
  · subst hd
    rfl
  · have hfe : data.filter (fun r => r.cipher_code == some (pyStrip q)) = [] := by
      apply List.filter_eq_nil_iff.mpr
      intro r hr
      simpa using hex r hr
    rw [search_programs_partial_phase data q (litSeq (pyStrip q).toList) hd hfe
      (compilePattern_litOnly hlit)]
    congr 2
    apply List.filter_congr
    intro r hr
    exact cipherMatchesPattern_litSeq (pyStrip q) r

/-- Witness for C4 amended: the query "3220203" has no exact match,
matches the stored cipher "4S03220203" case-insensitively as a
substring, and the record with a null cipher cell is not selected. -/
theorem c4_substring_phase_witness :
    search_programs [⟨"X", "Xname", some "4S03220203"⟩, ⟨"N", "Nname", none⟩]
      (.str "3220203") = .ok ["X - Xname"] := by
  have h := c4_substring_phase
    [⟨"X", "Xname", some "4S03220203"⟩, ⟨"N", "Nname", none⟩] "3220203"
    (by decide) (by decide)
  exact h.trans (by decide)

/-- C5: whenever a search returns a list, that list has no duplicate
formatted strings, is a sublist of the formatted data in source order
(first-seen order preserved), and every entry is the formatting of some
record of the data. -/
theorem c5_dedup (data : List DRecord) (q : Query) (l : List String)
    (h : search_programs data q = .ok l) :
    l.Nodup ∧ l.Sublist (data.map formatRecord) ∧
      ∀ s ∈ l, ∃ r ∈ data, formatRecord r = s := by
  have main : ∀ p : DRecord → Bool,
      (dedupLoop (data.filter p) []).Nodup ∧
      (dedupLoop (data.filter p) []).Sublist (data.map formatRecord) ∧
      ∀ s ∈ dedupLoop (data.filter p) [], ∃ r ∈ data, formatRecord r = s := by
    intro p
    refine ⟨dedupLoop_nodup _ _, ?_, ?_⟩
    · exact (dedupLoop_sublist _ _).trans
        (List.Sublist.map _ (List.filter_sublist _))
    · intro s hs
      obtain ⟨r, hrf, hfmt⟩ := mem_dedupLoop _ _ hs
      exact ⟨r, (List.mem_filter.mp hrf).1, hfmt⟩
  rw [search_programs] at h
  split at h
  · obtain rfl : l = [] := by
      injection h with h
      exact h.symm
    simp
  · split at h
    · cases h
    · dsimp only at h
      split at h
      · obtain rfl : l = dedupLoop _ [] := by
          injection h with h
          exact h.symm
        exact main _
      · split at h
        · cases h
        · obtain rfl : l = dedupLoop _ [] := by
            injection h with h
            exact h.symm
          exact main _

/-- Witness for C5: two distinct records with ciphers "11" and "12" both
match the substring query "1" and produce the same formatted string,
which appears exactly once. -/
theorem c5_dedup_witness :
    (["A - Alpha"] : List String).Nodup ∧
    (["A - Alpha"] : List String).Sublist
      ([⟨"A", "Alpha", some "11"⟩, ⟨"A", "Alpha", some "12"⟩].map formatRecord) ∧
    ∀ s ∈ (["A - Alpha"] : List String),
      ∃ r ∈ [(⟨"A", "Alpha", some "11"⟩ : DRecord), ⟨"A", "Alpha", some "12"⟩],
        formatRecord r = s :=
  c5_dedup [⟨"A", "Alpha", some "11"⟩, ⟨"A", "Alpha", some "12"⟩] (.str "1")
    ["A - Alpha"] (by decide)

/-- C6: a query that strips to the empty string finds no exact match in
loaded data (loaded ciphers are never empty), compiles to the empty
pattern which occurs in every cipher, and so returns every loaded
record formatted and deduplicated, in first-seen order. -/
theorem c6_empty_query (src : Except String RawTable) (q : String)
    (hq : pyStrip q = "") :
    search_programs ((load_data src).map Record.toD) (.str q) =
      .ok (dedupLoop ((load_data src).map Record.toD) []) := by
  by_cases hd : (load_data src).map Record.toD = []
  · rw [hd]
    rfl
  · have hfe : ((load_data src).map Record.toD).filter
        (fun r => r.cipher_code == some (pyStrip q)) = [] := by
      rw [hq]
      apply List.filter_eq_nil_iff.mpr
      intro r hr
      obtain ⟨rec, hrec, rfl⟩ := List.mem_map.mp hr
      have hb := load_data_cipher_not_blank src rec hrec
      rw [isBlankCipher, Bool.or_eq_false_iff] at hb
      simp [Record.toD]
      simpa using hb.2
    have hcp : compilePattern (pyStrip q) = .ok Regex.eps := by
      rw [hq]
      rfl
    rw [search_programs_partial_phase _ q Regex.eps hd hfe hcp]
    congr 2
    apply List.filter_eq_self.mpr
    intro r hr
    obtain ⟨rec, hrec, rfl⟩ := List.mem_map.mp hr
    show cipherMatchesPattern Regex.eps rec.toD = true
    rw [Record.toD, cipherMatchesPattern]
    exact searchChars_eps _

/-- Witness for C6: on a one-record loaded table, the whitespace query
returns that record formatted. -/
theorem c6_empty_query_witness :
    search_programs ((load_data (.ok ⟨3,
      [⟨some "A", some "Alpha", some "101"⟩]⟩)).map Record.toD) (.str " ") =
      .ok ["A - Alpha"] := by
  have h := c6_empty_query (.ok ⟨3, [⟨some "A", some "Alpha", some "101"⟩]⟩) " "
    (by decide)
  exact h.trans (by decide)

/-- C7: when reading the source raises or the table has fewer than 3
columns, `load_data` yields an empty record set, and every subsequent
search — whatever the query, even a non-string one — returns an empty
result. -/
theorem c7_degraded_load (src : Except String RawTable)
    (h : ∀ t : RawTable, src = .ok t → t.numCols < 3) :
    load_data src = [] ∧
    ∀ q : Query, search_programs ((load_data src).map Record.toD) q = .ok [] := by
  have hempty : load_data src = [] := by
    rcases src with e | t
    · rfl
    · rw [load_data]
      rw [if_pos (h t rfl)]
  refine ⟨hempty, ?_⟩
  intro q
  rw [hempty]
  exact search_programs_empty_data q

/-- Witness for C7: a failed read yields no records and a search for a
plain string query answers nothing. -/
theorem c7_degraded_load_witness :
    load_data (.error "read failure") = [] ∧
    search_programs ((load_data (.error "read failure")).map Record.toD)
      (.str "4S03220203") = .ok [] := by
  have h := c7_degraded_load (.error "read failure") (fun t ht => by cases ht)
  exact ⟨h.1, h.2 (.str "4S03220203")⟩

/-- Counterexample to C8: on a non-empty record set with no exact match,
the query "(" is compiled as a regular expression and raises
`re.error: missing ), unterminated subpattern` — search does not return
a list. -/
theorem c8_counterexample :
    search_programs [⟨"A", "Alpha", some "101"⟩] (.str "(") =
      .error "re.error: unbalanced or unterminated construct" := by
  decide

/-- C8 amended: search completes and returns a list for every query
whose stripped text is free of regex metacharacters (in particular for
the cipher-like queries the bot expects); a query that is an invalid
regular expression, such as "(", raises a query-time error when the
exact phase finds nothing. -/
theorem c8_no_error_for_plain_query (data : List DRecord) (q : String)
    (hlit : litOnly (pyStrip q) = true) :
    ∃ l : List String, search_programs data (.str q) = .ok l := by
  by_cases hd : data = []
  · subst hd
    exact ⟨[], rfl⟩
  · by_cases hex : data.filter (fun r => r.cipher_code == some (pyStrip q)) = []
    · exact ⟨_, search_programs_partial_phase data q (litSeq (pyStrip q).toList)
        hd hex (compilePattern_litOnly hlit)⟩
    · exact ⟨_, search_programs_exact_phase data q hd hex⟩

/-- Witness for C8 amended: the metacharacter-free query "no such
cipher" returns a (here empty) list without error. -/
theorem c8_no_error_for_plain_query_witness :
    litOnly (pyStrip "999") = true ∧
    ∃ l : List String,
      search_programs [⟨"A", "Alpha", some "101"⟩] (.str "999") = .ok l :=
  ⟨by decide, c8_no_error_for_plain_query [⟨"A", "Alpha", some "101"⟩] "999"
    (by decide)⟩

/-- Counterexample to C9: on a non-empty record set a `None` query does
not behave as the empty string — `None.strip()` raises
`AttributeError` while the empty-string query returns a result list. -/
theorem c9_counterexample :
    search_programs [⟨"A", "Alpha", some "101"⟩] .noneq =
      .error "AttributeError: NoneType object has no attribute strip" ∧
    search_programs [⟨"A", "Alpha", some "101"⟩] (.str "") = .ok ["A - Alpha"] := by
  exact ⟨by decide, by decide⟩

/-- C9 amended: a null or non-string query behaves exactly as the empty
string only when the record set is empty (both return the empty list
via the early-exit check); on a non-empty record set, `.strip()` on the
query raises `AttributeError` instead of the claimed empty-string
treatment. -/
theorem c9_nonstring_query (data : List DRecord) (q : Query)
    (hq : q.isStr = false) :
    (data = [] → search_programs data q = search_programs data (.str "")) ∧
    (data ≠ [] → ∃ e, search_programs data q = .error e) := by
  constructor
  · intro hd
    subst hd
    rfl
  · intro hd
    rcases q with s | n | _
    · cases hq
    · refine ⟨"AttributeError: int object has no attribute strip", ?_⟩
      rw [search_programs]
      rw [if_neg (by simpa using hd)]
      rfl
    · refine ⟨"AttributeError: NoneType object has no attribute strip", ?_⟩
      rw [search_programs]
      rw [if_neg (by simpa using hd)]
      rfl

/-- Witness for C9 amended: a `None` query on empty data behaves as the
empty string; on one record it yields an error. -/
theorem c9_nonstring_query_witness :
    search_programs [] .noneq = search_programs [] (.str "") ∧
    ∃ e, search_programs [⟨"A", "Alpha", some "101"⟩] .noneq = .error e :=
  ⟨(c9_nonstring_query [] .noneq (by decide)).1 rfl,
    (c9_nonstring_query [⟨"A", "Alpha", some "101"⟩] .noneq (by decide)).2
      (by decide)⟩

/-- C10: a row with exactly one of the code and name cells present
leaves the carry-forward state unchanged, and emits its (non-blank)
cipher under the carried code and name exactly when both are set and
truthy — the row's own partial code or name is discarded. -/
theorem c10_partial_row (a b z : Option String) (rs : List Row)
    (cc cn : Option String)
    (h : (∃ c0, a = some c0) ∧ b = none ∨ a = none ∧ ∃ n0, b = some n0) :
    processRows (⟨a, b, z⟩ :: rs) cc cn =
      (match z, pyTruthy cc && pyTruthy cn with
       | some z0, true =>
         if isBlankCipher (pyStrip z0) then []
         else [⟨optStr cc, optStr cn, pyStrip z0⟩]
       | _, _ => []) ++ processRows rs cc cn := by
  rcases h with ⟨⟨c0, rfl⟩, rfl⟩ | ⟨rfl, ⟨n0, rfl⟩⟩
  · rfl
  · rfl

/-- Witness for C10: a row with only a code cell "X" and cipher " 9 "
emits the cipher, trimmed, under the carried pair A/Alpha, and "X" is
discarded. -/
theorem c10_partial_row_witness :
    processRows [⟨some "X", none, some " 9 "⟩] (some "A") (some "Alpha") =
      [⟨"A", "Alpha", "9"⟩] := by
  have h := c10_partial_row (some "X") none (some " 9 ") [] (some "A")
    (some "Alpha") (Or.inl ⟨⟨"X", rfl⟩, rfl⟩)
  exact h.trans (by decide)
